import Mathlib

/-!
Shallow embedding of the `powerplantsim` simulation core (package `ppsim`).

Python floats are modelled as rationals (`ℚ`); the `None`/`NaN` machine states
and edge flows are modelled as `Option ℚ` (`none` plays the role that the code
gives uniformly to both `None` and `NaN` via the guard `s is None or np.isnan(s)`).
Error-raising `assert` statements are modelled by `Except String` results whose
messages mirror the Python f-strings (numbers are rendered with Lean's `toString`
on `ℚ` instead of Python float formatting, and the surrounding quote characters
of the f-strings are dropped; which identifiers and quantities appear in a
message is preserved exactly).
-/

namespace PPSim

/-- Edge identifier as used in the per-step `flows` dictionary:
`(source, destination, commodity)` (see `ppsim/utils/typing.py`, `EdgeID`). -/
abbrev EdgeKey := String × String × String

/-- The realized flows of one simulation step: the items of the Python dict
`Flows = Dict[EdgeID, Flow]`. -/
abbrev Flows := List (EdgeKey × ℚ)

/-- Absolute tolerance of `np.isclose` (numpy default `atol = 1e-8`). -/
def atol : ℚ := 1 / 100000000

/-- Relative tolerance of `np.isclose` (numpy default `rtol = 1e-5`). -/
def rtol : ℚ := 1 / 100000

/-- `np.isclose(a, b)` with the default tolerances:
`|a - b| <= atol + rtol * |b|`. -/
def isclose (a b : ℚ) : Bool := |a - b| ≤ atol + rtol * |b|

/-! ## Customer (`ppsim/datatypes/client.py`, `Customer.step`) -/

/-- The state of a `Customer` node that `Customer.step` reads:
its name and the committed history `_values` of realized demands. -/
structure Customer where
  name : String
  values : List ℚ

/-- `np.sum([flow for (_, destination, _), flow in flows.items() if destination == self.name])`:
the summed realized inbound flow of the node called `name`. -/
def inflowSum (name : String) (flows : Flows) : ℚ :=
  ((flows.filter (fun kv => kv.1.2.1 == name)).map (fun kv => kv.2)).sum

/-- `Customer.step` from `ppsim/datatypes/client.py` (identical in
`ppsim/datatypes/extremity.py`): `demand` is the pending
`_info[current_value]` that `update` computed; the summed inbound flow must not
exceed it, and on success the *demand* is appended to `_values`. -/
def customerStep (c : Customer) (demand : ℚ) (flows : Flows) : Except String (List ℚ) :=
  let flow := inflowSum c.name flows
  if flow ≤ demand then
    .ok (c.values ++ [demand])
  else
    .error ("Customer node " ++ c.name ++ " can accept at most " ++ toString demand ++
      " units, got " ++ toString flow)

/-! ## Storage (`ppsim/datatypes/storage.py`) -/

/-- The configuration and committed history (`_storage`) of a `Storage` node. -/
structure Storage where
  name : String
  capacity : ℚ
  dissipation : ℚ
  charge_rate : ℚ
  discharge_rate : ℚ
  storage : List ℚ

/-- The summed flow on the out-edges of the node called `name`: the loop
`out_flow += flow if source == self.name else 0.0` over `flows.items()`. -/
def outflowSum (name : String) (flows : Flows) : ℚ :=
  ((flows.filter (fun kv => kv.1.1 == name)).map (fun kv => kv.2)).sum

/-- `Storage.update`:
`_info[current_storage] = 0 if len(self._storage) == 0 else (1 - self.dissipation) * self._storage[-1]`. -/
def storageUpdate (s : Storage) : ℚ :=
  match s.storage.getLast? with
  | none => 0
  | some last => (1 - s.dissipation) * last

/-- `storage = current + in_flow - out_flow` computed inside `Storage.step`,
where `current` is the pending `_info[current_storage]` set by `update`. -/
def newAmount (s : Storage) (current : ℚ) (flows : Flows) : ℚ :=
  current + inflowSum s.name flows - outflowSum s.name flows

/-- `Storage.step` from `ppsim/datatypes/storage.py`: the chain of `assert`
statements followed by `self._storage.append(storage)`. -/
def storageStep (s : Storage) (current : ℚ) (flows : Flows) : Except String (List ℚ) :=
  if ¬(inflowSum s.name flows = 0 ∨ outflowSum s.name flows = 0) then
    .error ("Storage node " ++ s.name ++
      " can have either input or output flows in a single time step, got both")
  else if ¬(inflowSum s.name flows ≤ s.charge_rate) then
    .error ("Storage node " ++ s.name ++ " should have maximal input flow " ++
      toString s.charge_rate ++ ", got " ++ toString (inflowSum s.name flows))
  else if ¬(outflowSum s.name flows ≤ s.discharge_rate) then
    .error ("Storage node " ++ s.name ++ " should have maximal output flow " ++
      toString s.discharge_rate ++ ", got " ++ toString (outflowSum s.name flows))
  else if ¬(0 ≤ newAmount s current flows) then
    .error ("Storage node " ++ s.name ++ " cannot contain negative amount, got " ++
      toString (newAmount s current flows))
  else if ¬(newAmount s current flows ≤ s.capacity) then
    .error ("Storage node " ++ s.name ++ " cannot contain more than " ++
      toString s.capacity ++ " amount, got " ++ toString (newAmount s current flows))
  else
    .ok (s.storage ++ [newAmount s current flows])

/-! ## Machine (`ppsim/datatypes/machine.py`) -/

/-- A setpoint-table column key: the tuple `(gate, commodity)` where the gate is
the string `input` or `output` (the two level-0 labels of the dataframe). -/
abbrev GateKey := String × String

/-- The configuration and committed history (`_states`) of a `Machine` node.
`setpoints` is the sorted index of the `_setpoint` dataframe and `cols` its
columns, each aligned with `setpoints`; a `none` state models the Python
`None`/`NaN` (machine off). -/
structure Machine where
  name : String
  setpoints : List ℚ
  cols : List (GateKey × List ℚ)
  discrete_setpoint : Bool
  max_starting : Option (Nat × Nat)
  states : List (Option ℚ)

/-- The entry of `machine_flows` for a column `(gate, commodity)`: the loop over
`flows.items()` adding `flow` to `(output, commodity)` when `source == name` and
to `(input, commodity)` when `destination == name`. -/
def gateFlow (name : String) (gk : GateKey) (flows : Flows) : ℚ :=
  flows.foldl (fun acc kv =>
    acc + (if gk.1 == "output" && kv.1.1 == name && kv.1.2.2 == gk.2 then kv.2 else 0)
        + (if gk.1 == "input" && kv.1.2.1 == name && kv.1.2.2 == gk.2 then kv.2 else 0)) 0

/-- `self._setpoint[(key, commodity)].loc[state]`: the column value at the
(first) position of `x` in the setpoint index. -/
def spLookup (x : ℚ) : List ℚ → List ℚ → ℚ
  | s :: ss, v :: vs => if x = s then v else spLookup x ss vs
  | _, _ => 0

/-- `np.interp(x, xp, fp)` on the zipped knot list (piecewise-linear
interpolation, clamped at the ends like numpy; the machine code only calls it
after checking `lb <= x <= ub`). -/
def interp (x : ℚ) : List (ℚ × ℚ) → ℚ
  | [] => 0
  | [(_, y)] => y
  | (x1, y1) :: (x2, y2) :: rest =>
    if x ≤ x1 then y1
    else if x ≤ x2 then y1 + (y2 - y1) * (x - x1) / (x2 - x1)
    else interp x ((x2, y2) :: rest)

/-- The loop of the null-state (off) branch of `Machine.step`: every
`machine_flows` entry must satisfy `np.isclose(flow, 0.0)`. -/
def offCheck (name : String) (flows : Flows) : List (GateKey × List ℚ) → Option String
  | [] => none
  | (gk, _) :: rest =>
    if isclose (gateFlow name gk flows) 0 then offCheck name flows rest
    else some ("Got non-zero " ++ gk.1 ++ " flow for " ++ gk.2 ++
      " despite null setpoint for machine " ++ name)

/-- The loop of the discrete-setpoint branch of `Machine.step`: every
`machine_flows` entry must satisfy `np.isclose(expected, flow)` with
`expected = setpoint[(key, commodity)].loc[state]`. -/
def discreteCheck (m : Machine) (x : ℚ) (flows : Flows) :
    List (GateKey × List ℚ) → Option String
  | [] => none
  | (gk, vals) :: rest =>
    if isclose (spLookup x m.setpoints vals) (gateFlow m.name gk flows) then
      discreteCheck m x flows rest
    else some ("Flow " ++ toString (spLookup x m.setpoints vals) ++
      " expected for machine " ++ m.name ++ " with state " ++ toString x ++
      ", got " ++ toString (gateFlow m.name gk flows))

/-- The loop of the continuous-setpoint branch of `Machine.step`: every
`machine_flows` entry must satisfy `np.isclose(expected, flow)` with
`expected = np.interp(state, xp=setpoint.index, fp=setpoint[(key, commodity)])`. -/
def continuousCheck (m : Machine) (x : ℚ) (flows : Flows) :
    List (GateKey × List ℚ) → Option String
  | [] => none
  | (gk, vals) :: rest =>
    if isclose (interp x (m.setpoints.zip vals)) (gateFlow m.name gk flows) then
      continuousCheck m x flows rest
    else some ("Expected flow " ++ toString (interp x (m.setpoints.zip vals)) ++
      " for " ++ gk.1 ++ " commodity " ++ gk.2 ++ " in machine " ++ m.name ++
      ", got " ++ toString (gateFlow m.name gk flows))

/-- Python list slicing `l[-n:]`: the last `n` elements. -/
def takeLast (l : List α) (n : Nat) : List α := l.drop (l.length - n)

/-- The number of null-to-non-null transitions among consecutive pairs of a
state list: the loop counter of the `max_starting` check. -/
def startCount (l : List (Option ℚ)) : Nat :=
  (l.zip l.tail).countP (fun p => p.1 == none && !(p.2 == none))

/-- The truncated window length `t = min(t, len(self._states) + 1)` used by the
`max_starting` check of `Machine.step`. -/
def effWindow (m : Machine) (t : Nat) : Nat := min t (m.states.length + 1)

/-- The state list `[np.nan, *self._states[-t:], state]` restricted to the pairs
the zip actually inspects (`zip(states[-t-1:-1], states[-t:])` walks the
consecutive pairs of the last `t + 1` entries). -/
def startWindow (m : Machine) (t : Nat) (x : ℚ) : List (Option ℚ) :=
  takeLast ((none :: takeLast m.states (effWindow m t)) ++ [some x]) (effWindow m t + 1)

/-- The `max_starting` check of `Machine.step`: with `max_starting = (n, t)`,
the number of off-to-on transitions in the trailing window (implicit off
sentinel included when the history is short) must be at most `n`. -/
def maxStartCheck (m : Machine) (x : ℚ) : Option String :=
  match m.max_starting with
  | none => none
  | some (n, t) =>
    if startCount (startWindow m t x) > n then
      some ("Machine " ++ m.name ++ " cannot be started for more than " ++
        toString n ++ " times in " ++ toString (effWindow m t) ++ " steps")
    else none

/-- `Machine.step` from `ppsim/datatypes/machine.py`: off branch for a null
state, then the discrete/continuous domain and flow checks, then the
`max_starting` check, then `self._states.append(state)`. -/
def machineStep (m : Machine) (state : Option ℚ) (flows : Flows) :
    Except String (List (Option ℚ)) :=
  match state with
  | none =>
    match offCheck m.name flows m.cols with
    | some e => .error e
    | none => .ok (m.states ++ [none])
  | some x =>
    if m.discrete_setpoint then
      if x ∈ m.setpoints then
        match discreteCheck m x flows m.cols with
        | some e => .error e
        | none =>
          match maxStartCheck m x with
          | some e => .error e
          | none => .ok (m.states ++ [some x])
      else .error ("Unsupported state " ++ toString x ++ " for machine " ++ m.name)
    else
      if m.setpoints.headD 0 ≤ x ∧ x ≤ m.setpoints.getLastD 0 then
        match continuousCheck m x flows m.cols with
        | some e => .error e
        | none =>
          match maxStartCheck m x with
          | some e => .error e
          | none => .ok (m.states ++ [some x])
      else .error ("Unsupported state " ++ toString x ++ " for machine " ++ m.name)

/-- Whether a state `x` is in the admissible setpoint domain of a machine:
membership in the breakpoints when discrete, the breakpoint interval when
continuous (this is the condition checked by `Machine.step`). -/
def inDomain (m : Machine) (x : ℚ) : Prop :=
  if m.discrete_setpoint then x ∈ m.setpoints
  else m.setpoints.headD 0 ≤ x ∧ x ≤ m.setpoints.getLastD 0

instance (m : Machine) (x : ℚ) : Decidable (inDomain m x) := by
  unfold inDomain; infer_instance

/-- The expected per-column flow of a machine at state `x`: exact table lookup
when discrete, linear interpolation over the breakpoints when continuous. -/
def expectedFlow (m : Machine) (x : ℚ) (col : GateKey × List ℚ) : ℚ :=
  if m.discrete_setpoint then spLookup x m.setpoints col.2
  else interp x (m.setpoints.zip col.2)

/-! ## Edge (`ppsim/datatypes/edge.py`, `InternalEdge.update`) -/

/-- The node kinds of the plant (the concrete `InternalNode` subclasses). -/
inductive NodeKind
  | supplier
  | customer
  | purchaser
  | machine
  | storage
deriving DecidableEq

/-- What `InternalEdge.update` sees of an endpoint node: its name and its
concrete class (used by the `isinstance(self.destination, Machine)` test). -/
structure EdgeNode where
  name : String
  kind : NodeKind

/-- The state of an `InternalEdge`: its frozen configuration, the mutable step
counter `_info.step` with the horizon length, and the committed `_flows`. -/
structure Edge where
  source : EdgeNode
  destination : EdgeNode
  min_flow : ℚ
  max_flow : ℚ
  integer : Bool
  step : Nat
  horizon : Nat
  flows : List (Option ℚ)

/-- The rendering of `self.key = (source.name, destination.name)` inside the
f-string error messages. -/
def edgeKeyStr (e : Edge) : String :=
  "(" ++ e.source.name ++ ", " ++ e.destination.name ++ ")"

/-- `InternalEdge.update` from `ppsim/datatypes/edge.py`: `self._step()` checks
the step counter against the horizon, then a `None`/`NaN` flow is allowed only
for machine destinations, while a numeric flow must respect
`min_flow <= flow <= max_flow` and, when `integer`, be a whole number
(`flow.is_integer()`, i.e. denominator 1); the flow value is then committed. -/
def edgeUpdate (e : Edge) (flow : Option ℚ) : Except String Edge :=
  if ¬(e.step < e.horizon) then
    .error ("InternalEdge" ++ edgeKeyStr e ++
      " has reached maximal number of updates for the simulation")
  else match flow with
  | none =>
    if e.destination.kind = NodeKind.machine then
      .ok { e with step := e.step + 1, flows := e.flows ++ [none] }
    else
      .error ("None flows are allowed for machines destinations only, got None flow for edge "
        ++ edgeKeyStr e)
  | some f =>
    if ¬(e.min_flow ≤ f) then
      .error ("Flow for edge " ++ edgeKeyStr e ++ " should be >= " ++
        toString e.min_flow ++ ", got " ++ toString f)
    else if ¬(f ≤ e.max_flow) then
      .error ("Flow for edge " ++ edgeKeyStr e ++ " should be <= " ++
        toString e.max_flow ++ ", got " ++ toString f)
    else if e.integer = true ∧ ¬(f.den = 1) then
      .error ("Flow for edge " ++ edgeKeyStr e ++ " should be integer, got " ++ toString f)
    else
      .ok { e with step := e.step + 1, flows := e.flows ++ [some f] }

/-- The C4 claim's acceptance condition for a null flow, following the claim's
words rather than the source: a null flow would be acceptable only when the
destination is a machine that is *off* (null state) in the current step. The
source check (`InternalEdge.update`) never consults the machine state. -/
def claimedNullFlowOk (e : Edge) (destState : Option ℚ) : Prop :=
  e.destination.kind = NodeKind.machine ∧ destState = none

/-! ## Node identity (`ppsim/datatypes/datatype.py`, `ppsim/datatypes/node.py`) -/

/-- A plant node as seen by `InternalDataType.__eq__` and `__hash__`: its
concrete class (kind), its name (which is its `key`), and its remaining
attributes, which the comparison never inspects. -/
structure INode where
  kind : NodeKind
  name : String
  attrs : List (String × String)

/-- `InternalNode.key`: the node name. -/
def INode.key (n : INode) : String := n.name

/-- The default `InternalDataType._instance`:
`isinstance(other, self.__class__)`, which for two concrete node objects is
exact-class (kind) equality. -/
def instanceDefault (a b : INode) : Bool := a.kind == b.kind

/-- The `InternalNode._instance` override (`ppsim/datatypes/node.py`):
`isinstance(other, InternalNode)` — true for every plant node of any kind. -/
def instanceNode (_ _ : INode) : Bool := true

/-- `InternalDataType.__eq__` as inherited by every node:
`self._instance(other) and self.key == other.key`, with `_instance` the
`InternalNode` override. -/
def nodeEq (a b : INode) : Bool := instanceNode a b && (a.key == b.key)

/-- `InternalDataType.__hash__`: `hash(self.key)`, where `strHash` stands for
the Python string hash. -/
def nodeHash (strHash : String → Int) (n : INode) : Int := strHash n.key

/-! ## Step counter and run loop (`ppsim/datatypes/datatype.py`, `Plant.run`) -/

/-- `InternalDataType._step` (`ppsim/datatypes/datatype.py`): asserts
`self._info.step < len(self._horizon)` and increments the counter (the Python
message interpolates `repr(self)`; the prefix is abbreviated to a fixed word
here). -/
def dataStep (H : Nat) (counter : Nat) : Except String Nat :=
  if counter < H then .ok (counter + 1)
  else .error ("datatype has reached maximal number of updates for the simulation")

/-- Modelled from the spec: `execution.run_update` is called by `Plant.run`
(`ppsim/plant/plant.py`) but its definition is not under `src/`; per the
specification (the two-phase protocol of section 4.1 and step 4 of section 4.9)
it invokes `update`/`step` once per entity for the current time step, which
advances each entity's `_step` counter exactly once. Modelled as advancing
every counter through `dataStep`, stopping at the first raised error. -/
def runUpdate (H : Nat) : List Nat → Except String (List Nat)
  | [] => .ok []
  | c :: rest =>
    match dataStep H c with
    | .error e => .error e
    | .ok c2 =>
      match runUpdate H rest with
      | .error e => .error e
      | .ok rest2 => .ok (c2 :: rest2)

/-- Modelled from the spec: the loop of `Plant.run` iterates once per row of
the processed plan, whose rows are indexed by the horizon (section 4.9: one
transition per step `t = 0..H-1`), calling `run_update` each time. -/
def runSim (H : Nat) (counters : List Nat) : Nat → Except String (List Nat)
  | 0 => .ok counters
  | k + 1 =>
    match runUpdate H counters with
    | .error e => .error e
    | .ok cs => runSim H cs k

/-- `Plant.run` as a step-counter machine: the simulation loop runs `H` steps
over the entities' counters. -/
def plantRun (H : Nat) (counters : List Nat) : Except String (List Nat) :=
  runSim H counters H

/-! ## Plant topology construction (`ppsim/plant/plant.py`, `_check_and_update`) -/

/-- A node as the `Plant` containers see it: name, kind string, input
commodity (`commodity_in`) and output commodities (`commodities_out`). -/
structure PNode where
  name : String
  kind : String
  commodity_in : Option String
  commodities_out : List String

/-- The mutable containers of a `Plant`: the commodity set, the `_nodes`
dictionary `{kind: node set}` (insertion-ordered, as Python dicts and the
membership loop are), and the `_edges` set keyed by `(source, destination)`. -/
structure PlantState where
  commodities : List String
  nodes : List (String × List PNode)
  edges : List (String × String)

/-- Python `set.add` on the commodity set (membership-preserving insert). -/
def addCommodity (l : List String) (c : String) : List String :=
  if c ∈ l then l else l ++ [c]

/-- Python `set.update` on the commodity set. -/
def updateCommodities (l : List String) (cs : List String) : List String :=
  cs.foldl addCommodity l

/-- The commodity set after the first two lines of `_check_and_update`:
`if node.commodity_in is not None: add(commodity_in)` then
`update(commodities_out)`. -/
def newComs (st : PlantState) (node : PNode) : List String :=
  updateCommodities
    (match node.commodity_in with
     | none => st.commodities
     | some c => addCommodity st.commodities c)
    node.commodities_out

/-- The loop `for kind, nodes in self._nodes.items(): assert node not in nodes`:
membership uses the `InternalNode` equality, i.e. name equality across kinds;
returns the kind of the first set holding a node with the same name. -/
def findCollision (nodes : List (String × List PNode)) (name : String) : Option String :=
  match nodes with
  | [] => none
  | (kind, ns) :: rest =>
    if ns.any (fun n => n.name == name) then some kind else findCollision rest name

/-- `node_set = self._nodes.get(node.kind, set()); node_set.add(node);
self._nodes[node.kind] = node_set` (set-add by node equality, i.e. name). -/
def insertNode (nodes : List (String × List PNode)) (node : PNode) :
    List (String × List PNode) :=
  match nodes with
  | [] => [(node.kind, [node])]
  | (kind, ns) :: rest =>
    if kind == node.kind then
      (kind, if ns.any (fun n => n.name == node.name) then ns else ns ++ [node]) :: rest
    else (kind, ns) :: insertNode rest node

/-- `self.nodes().get(name)`: lookup of a node by name across all kinds. -/
def findNode (nodes : List (String × List PNode)) (name : String) : Option PNode :=
  match nodes with
  | [] => none
  | (_, ns) :: rest =>
    match ns.find? (fun n => n.name == name) with
    | some n => some n
    | none => findNode rest name

/-- Python `set.add` on the edge set (`self._edges.add(edge)`), keyed by the
`(source, destination)` pair. -/
def addEdge (edges : List (String × String)) (k : String × String) :
    List (String × String) :=
  if k ∈ edges then edges else edges ++ [k]

/-- The rendering of the Python `None` into the mismatch error message. -/
def optStr : Option String → String
  | none => "None"
  | some c => c

/-- The parent loop of `_check_and_update`: for each parent name, the parent
must exist (`self.nodes().get(name)`) and expose the new node's
`commodity_in` among its `commodities_out`; on success one edge
`(parent, node)` is added and the loop continues, otherwise it raises. -/
def addParentEdges (node : PNode) : List String → PlantState → PlantState × Option String
  | [], st => (st, none)
  | pname :: rest, st =>
    match findNode st.nodes pname with
    | none => (st, some ("Parent node " ++ pname ++ " has not been added yet"))
    | some parent =>
      if node.commodity_in.any (fun c => decide (c ∈ parent.commodities_out)) then
        addParentEdges node rest
          { st with edges := addEdge st.edges (parent.name, node.name) }
      else
        (st, some ("Parent node " ++ parent.name ++ " should return commodity " ++
          optStr node.commodity_in ++ ", but it returns " ++
          toString parent.commodities_out))

/-- A parent name that passes both checks of the parent loop: it resolves to a
node and that node returns the new node's input commodity. -/
def parentGood (node : PNode) (nodes : List (String × List PNode)) (p : String) : Prop :=
  ∃ par, findNode nodes p = some par ∧
    node.commodity_in.any (fun c => decide (c ∈ par.commodities_out)) = true

/-- `Plant._check_and_update` (`ppsim/plant/plant.py`): commodities are added
first, then the name-uniqueness check over all kinds, then the node is
inserted, and only then (for non-supplier nodes, `parents` not `None`) the
parent list is validated; the returned pair carries the mutated state as it
stands when an error is raised (the Python mutations are not rolled back). -/
def checkAndUpdate (st : PlantState) (node : PNode) (parents : Option (List String)) :
    PlantState × Option String :=
  match findCollision st.nodes node.name with
  | some kind =>
    ({ st with commodities := newComs st node },
      some ("There is already a " ++ kind ++ " node " ++ node.name ++
        ", please use another identifier"))
  | none =>
    let st2 : PlantState :=
      { commodities := newComs st node, nodes := insertNode st.nodes node,
        edges := st.edges }
    match parents with
    | none => (st2, none)
    | some ps =>
      if ps.isEmpty then
        (st2, some (node.kind.capitalize ++ " node must have at least one parent"))
      else
        addParentEdges node ps st2

/-! ## Theorems -/

/-- **C1**: for every `Customer.step`, with `demand` the pending predicted demand
computed in `update`, the step commits (appending the *demand*, not the flow, to
the realized-value history) exactly when the summed realized inbound flow is
`≤ demand`; when the flow exceeds the demand it raises an error naming the
customer, the demand, and the received flow. -/
theorem customer_step_spec (c : Customer) (demand : ℚ) (flows : Flows) :
    (customerStep c demand flows = .ok (c.values ++ [demand]) ↔
      inflowSum c.name flows ≤ demand) ∧
    (demand < inflowSum c.name flows →
      customerStep c demand flows =
        .error ("Customer node " ++ c.name ++ " can accept at most " ++ toString demand ++
          " units, got " ++ toString (inflowSum c.name flows))) := by
  by_cases h : inflowSum c.name flows ≤ demand
  · refine ⟨by simp [customerStep, h], fun hlt => absurd h (not_le.mpr hlt)⟩
  · refine ⟨by simp [customerStep, h], fun _ => by simp [customerStep, h]⟩

/-- Witness for C1 at a concrete input: a customer with demand `5` receiving a
flow of `7` is rejected with the message naming the customer, `5` and `7`. -/
theorem customer_step_spec_witness :
    (5 : ℚ) < inflowSum "cus" [(("mac", "cus", "com"), 7)] ∧
    customerStep ⟨"cus", []⟩ 5 [(("mac", "cus", "com"), 7)] =
      .error ("Customer node " ++ "cus" ++ " can accept at most " ++ toString (5 : ℚ) ++
        " units, got " ++ toString (inflowSum "cus" [(("mac", "cus", "com"), 7)])) :=
  ⟨by norm_num [inflowSum], (customer_step_spec ⟨"cus", []⟩ 5 [(("mac", "cus", "com"), 7)]).2
    (by norm_num [inflowSum])⟩

/-- **C2**: for every `Storage.step`, with `previous_amount` equal to `0` when no
prior storage value exists and `(1 - dissipation) * last_committed_amount`
otherwise, and `in_flow` and `out_flow` the summed flows on the in-edges and
the out-edges:
the step commits `new_amount = previous_amount + in_flow - out_flow` exactly when
at most one of the two flows is non-zero, `in_flow ≤ charge_rate`,
`out_flow ≤ discharge_rate`, and `0 ≤ new_amount ≤ capacity`; each violation
raises the corresponding error naming the storage and the offending value. -/
theorem storage_step_spec (s : Storage) (flows : Flows) :
    (s.storage = [] → storageUpdate s = 0) ∧
    (∀ last, s.storage.getLast? = some last →
      storageUpdate s = (1 - s.dissipation) * last) ∧
    (storageStep s (storageUpdate s) flows =
        .ok (s.storage ++ [newAmount s (storageUpdate s) flows]) ↔
      ((inflowSum s.name flows = 0 ∨ outflowSum s.name flows = 0) ∧
        inflowSum s.name flows ≤ s.charge_rate ∧
        outflowSum s.name flows ≤ s.discharge_rate ∧
        0 ≤ newAmount s (storageUpdate s) flows ∧
        newAmount s (storageUpdate s) flows ≤ s.capacity)) ∧
    (inflowSum s.name flows ≠ 0 ∧ outflowSum s.name flows ≠ 0 →
      storageStep s (storageUpdate s) flows = .error ("Storage node " ++ s.name ++
        " can have either input or output flows in a single time step, got both")) ∧
    ((inflowSum s.name flows = 0 ∨ outflowSum s.name flows = 0) →
      s.charge_rate < inflowSum s.name flows →
      storageStep s (storageUpdate s) flows = .error ("Storage node " ++ s.name ++
        " should have maximal input flow " ++ toString s.charge_rate ++ ", got " ++
        toString (inflowSum s.name flows))) ∧
    ((inflowSum s.name flows = 0 ∨ outflowSum s.name flows = 0) →
      inflowSum s.name flows ≤ s.charge_rate →
      s.discharge_rate < outflowSum s.name flows →
      storageStep s (storageUpdate s) flows = .error ("Storage node " ++ s.name ++
        " should have maximal output flow " ++ toString s.discharge_rate ++ ", got " ++
        toString (outflowSum s.name flows))) ∧
    ((inflowSum s.name flows = 0 ∨ outflowSum s.name flows = 0) →
      inflowSum s.name flows ≤ s.charge_rate →
      outflowSum s.name flows ≤ s.discharge_rate →
      newAmount s (storageUpdate s) flows < 0 →
      storageStep s (storageUpdate s) flows = .error ("Storage node " ++ s.name ++
        " cannot contain negative amount, got " ++
        toString (newAmount s (storageUpdate s) flows))) ∧
    ((inflowSum s.name flows = 0 ∨ outflowSum s.name flows = 0) →
      inflowSum s.name flows ≤ s.charge_rate →
      outflowSum s.name flows ≤ s.discharge_rate →
      0 ≤ newAmount s (storageUpdate s) flows →
      s.capacity < newAmount s (storageUpdate s) flows →
      storageStep s (storageUpdate s) flows = .error ("Storage node " ++ s.name ++
        " cannot contain more than " ++ toString s.capacity ++ " amount, got " ++
        toString (newAmount s (storageUpdate s) flows))) := by
  refine ⟨fun h => by simp [storageUpdate, h], fun last h => by simp [storageUpdate, h],
    ?_, ?_, ?_, ?_, ?_, ?_⟩
  · by_cases h1 : inflowSum s.name flows = 0 ∨ outflowSum s.name flows = 0
    · by_cases h2 : inflowSum s.name flows ≤ s.charge_rate
      · by_cases h3 : outflowSum s.name flows ≤ s.discharge_rate
        · by_cases h4 : 0 ≤ newAmount s (storageUpdate s) flows
          · by_cases h5 : newAmount s (storageUpdate s) flows ≤ s.capacity
            · simp [storageStep, h1, h2, h3, h4, h5]
            · simp [storageStep, h1, h2, h3, h4, h5]
          · simp [storageStep, h1, h2, h3, h4]
        · simp [storageStep, h1, h2, h3]
      · simp [storageStep, h1, h2]
    · simp [storageStep, h1]
  · intro h
    simp [storageStep, h.1, h.2]
  · intro h1 h2
    simp [storageStep, h1, not_le.mpr h2]
  · intro h1 h2 h3
    simp [storageStep, h1, h2, not_le.mpr h3]
  · intro h1 h2 h3 h4
    simp [storageStep, h1, h2, h3, not_le.mpr h4]
  · intro h1 h2 h3 h4 h5
    simp [storageStep, h1, h2, h3, h4, not_le.mpr h5]

/-- Witness for C2 at a concrete input (the scenario of the specification,
section 8.3): a storage with capacity `5`, dissipation `1/10`, prior amount `3`
receiving an input flow of `3` computes `new_amount = 27/10 + 3 = 57/10` and
raises the capacity error naming `5` and `57/10`. -/
theorem storage_step_spec_witness :
    storageStep ⟨"sto", 5, 1/10, 10, 10, [3]⟩
        (storageUpdate ⟨"sto", 5, 1/10, 10, 10, [3]⟩) [(("sup", "sto", "com"), 3)] =
      .error ("Storage node " ++ "sto" ++ " cannot contain more than " ++
        toString ((5 : ℚ)) ++ " amount, got " ++
        toString (newAmount ⟨"sto", 5, 1/10, 10, 10, [3]⟩
          (storageUpdate ⟨"sto", 5, 1/10, 10, 10, [3]⟩) [(("sup", "sto", "com"), 3)])) := by
  have h := (storage_step_spec ⟨"sto", 5, 1/10, 10, 10, [3]⟩ [(("sup", "sto", "com"), 3)]).2.2.2.2.2.2.2
  exact h (by simp [inflowSum, outflowSum]) (by simp [inflowSum]; try norm_num)
    (by simp [outflowSum]; try norm_num)
    (by simp [newAmount, inflowSum, outflowSum, storageUpdate]; try norm_num)
    (by simp [newAmount, inflowSum, outflowSum, storageUpdate]; try norm_num)

theorem offCheck_eq_none_iff (name : String) (flows : Flows)
    (cols : List (GateKey × List ℚ)) :
    offCheck name flows cols = none ↔
      ∀ col ∈ cols, isclose (gateFlow name col.1 flows) 0 := by
  induction cols with
  | nil => simp [offCheck]
  | cons c rest ih =>
    obtain ⟨gk, vals⟩ := c
    by_cases h : isclose (gateFlow name gk flows) 0 = true
    · simpa [offCheck, h, List.forall_mem_cons] using ih
    · simp [offCheck, h, List.forall_mem_cons]

theorem offCheck_eq_some (name : String) (flows : Flows)
    (cols : List (GateKey × List ℚ)) (e : String) :
    offCheck name flows cols = some e →
      ∃ col ∈ cols, ¬ isclose (gateFlow name col.1 flows) 0 ∧
        e = "Got non-zero " ++ col.1.1 ++ " flow for " ++ col.1.2 ++
          " despite null setpoint for machine " ++ name := by
  induction cols with
  | nil => simp [offCheck]
  | cons c rest ih =>
    obtain ⟨gk, vals⟩ := c
    by_cases h : isclose (gateFlow name gk flows) 0 = true
    · intro he
      obtain ⟨col, hmem, hcol⟩ := ih (by simpa [offCheck, h] using he)
      exact ⟨col, List.mem_cons_of_mem _ hmem, hcol⟩
    · intro he
      refine ⟨(gk, vals), List.mem_cons_self _ _, by simpa using h, ?_⟩
      simpa [offCheck, h] using he.symm

theorem discreteCheck_eq_none_iff (m : Machine) (x : ℚ) (flows : Flows)
    (cols : List (GateKey × List ℚ)) :
    discreteCheck m x flows cols = none ↔
      ∀ col ∈ cols, isclose (spLookup x m.setpoints col.2) (gateFlow m.name col.1 flows) := by
  induction cols with
  | nil => simp [discreteCheck]
  | cons c rest ih =>
    obtain ⟨gk, vals⟩ := c
    by_cases h : isclose (spLookup x m.setpoints vals) (gateFlow m.name gk flows) = true
    · simpa [discreteCheck, h, List.forall_mem_cons] using ih
    · simp [discreteCheck, h, List.forall_mem_cons]

theorem discreteCheck_eq_some (m : Machine) (x : ℚ) (flows : Flows)
    (cols : List (GateKey × List ℚ)) (e : String) :
    discreteCheck m x flows cols = some e →
      ∃ col ∈ cols, ¬ isclose (spLookup x m.setpoints col.2) (gateFlow m.name col.1 flows) ∧
        e = "Flow " ++ toString (spLookup x m.setpoints col.2) ++
          " expected for machine " ++ m.name ++ " with state " ++ toString x ++
          ", got " ++ toString (gateFlow m.name col.1 flows) := by
  induction cols with
  | nil => simp [discreteCheck]
  | cons c rest ih =>
    obtain ⟨gk, vals⟩ := c
    by_cases h : isclose (spLookup x m.setpoints vals) (gateFlow m.name gk flows) = true
    · intro he
      obtain ⟨col, hmem, hcol⟩ := ih (by simpa [discreteCheck, h] using he)
      exact ⟨col, List.mem_cons_of_mem _ hmem, hcol⟩
    · intro he
      refine ⟨(gk, vals), List.mem_cons_self _ _, by simpa using h, ?_⟩
      simpa [discreteCheck, h] using he.symm

theorem continuousCheck_eq_none_iff (m : Machine) (x : ℚ) (flows : Flows)
    (cols : List (GateKey × List ℚ)) :
    continuousCheck m x flows cols = none ↔
      ∀ col ∈ cols, isclose (interp x (m.setpoints.zip col.2)) (gateFlow m.name col.1 flows) := by
  induction cols with
  | nil => simp [continuousCheck]
  | cons c rest ih =>
    obtain ⟨gk, vals⟩ := c
    by_cases h : isclose (interp x (m.setpoints.zip vals)) (gateFlow m.name gk flows) = true
    · simpa [continuousCheck, h, List.forall_mem_cons] using ih
    · simp [continuousCheck, h, List.forall_mem_cons]

theorem continuousCheck_eq_some (m : Machine) (x : ℚ) (flows : Flows)
    (cols : List (GateKey × List ℚ)) (e : String) :
    continuousCheck m x flows cols = some e →
      ∃ col ∈ cols, ¬ isclose (interp x (m.setpoints.zip col.2)) (gateFlow m.name col.1 flows) ∧
        e = "Expected flow " ++ toString (interp x (m.setpoints.zip col.2)) ++
          " for " ++ col.1.1 ++ " commodity " ++ col.1.2 ++ " in machine " ++ m.name ++
          ", got " ++ toString (gateFlow m.name col.1 flows) := by
  induction cols with
  | nil => simp [continuousCheck]
  | cons c rest ih =>
    obtain ⟨gk, vals⟩ := c
    by_cases h : isclose (interp x (m.setpoints.zip vals)) (gateFlow m.name gk flows) = true
    · intro he
      obtain ⟨col, hmem, hcol⟩ := ih (by simpa [continuousCheck, h] using he)
      exact ⟨col, List.mem_cons_of_mem _ hmem, hcol⟩
    · intro he
      refine ⟨(gk, vals), List.mem_cons_self _ _, by simpa using h, ?_⟩
      simpa [continuousCheck, h] using he.symm

/-- **C6** (counterexample): the claim says an input flow/state of exactly `0`
means the machine is off and the commit succeeds when every realized flow on the
machine edges is zero; but `Machine.step` treats only `None`/`NaN` as off, so a
continuous machine with breakpoints `[50, 100]`, a state of `0`, and all flows
zero raises `Unsupported state 0` instead of committing. -/
theorem machine_zero_state_counterexample :
    machineStep ⟨"m", [50, 100], [(("input", "in_com"), [50, 100]),
        (("output", "out_com"), [10, 20])], false, none, []⟩ (some 0) [] =
      .error ("Unsupported state " ++ toString (0 : ℚ) ++ " for machine " ++ "m") := by
  have h50 : ¬((50 : ℚ) ≤ 0) := by norm_num
  simp [machineStep, h50]

/-- **C6** (amended): a *null* state (`None`/`NaN`, modelled `none`) means the
machine is off: `Machine.step` commits the null state and succeeds if and only
if every realized flow on the machine edges is within `np.isclose` tolerance
of zero; otherwise it raises naming the offending gate, commodity and machine. -/
theorem machine_off_spec (m : Machine) (flows : Flows) :
    (machineStep m none flows = .ok (m.states ++ [none]) ↔
      ∀ col ∈ m.cols, isclose (gateFlow m.name col.1 flows) 0) ∧
    (∀ e, machineStep m none flows = .error e →
      ∃ col ∈ m.cols, ¬ isclose (gateFlow m.name col.1 flows) 0 ∧
        e = "Got non-zero " ++ col.1.1 ++ " flow for " ++ col.1.2 ++
          " despite null setpoint for machine " ++ m.name) := by
  constructor
  · cases hoc : offCheck m.name flows m.cols with
    | none =>
      simpa [machineStep, hoc] using (offCheck_eq_none_iff m.name flows m.cols).mp hoc
    | some e =>
      refine iff_of_false (by simp [machineStep, hoc]) ?_
      intro hall
      rw [(offCheck_eq_none_iff m.name flows m.cols).mpr hall] at hoc
      exact Option.noConfusion hoc
  · intro e he
    cases hoc : offCheck m.name flows m.cols with
    | none => simp [machineStep, hoc] at he
    | some e2 =>
      have he2 : e2 = e := by simpa [machineStep, hoc] using he
      exact he2 ▸ offCheck_eq_some m.name flows m.cols e2 hoc

/-- Witness for the amended C6 at a concrete input: an off (null-state) machine
whose edges all carry zero flow commits successfully. -/
theorem machine_off_spec_witness :
    machineStep ⟨"m", [50, 100], [(("input", "in_com"), [50, 100]),
        (("output", "out_com"), [10, 20])], false, none, []⟩ none [] =
      .ok (([] : List (Option ℚ)) ++ [none]) :=
  (machine_off_spec ⟨"m", [50, 100], [(("input", "in_com"), [50, 100]),
      (("output", "out_com"), [10, 20])], false, none, []⟩ []).1.mpr (by
    intro col hc
    simp [isclose, gateFlow, atol, rtol])

/-- **C3** (counterexample): a state outside the setpoint domain raises the
message `Unsupported state ...`, not `Unsupported flow ...` as the claim states:
a discrete machine with breakpoints `[50, 75, 100]` rejects state `70` with a
message that starts with `Unsupported state` and not with `Unsupported flow`. -/
theorem machine_unsupported_message_counterexample :
    machineStep ⟨"m", [50, 75, 100], [], true, none, []⟩ (some 70) [] =
      .error ("Unsupported state " ++ toString (70 : ℚ) ++ " for machine " ++ "m") ∧
    List.isPrefixOf ("Unsupported state").data
      ("Unsupported state " ++ toString (70 : ℚ) ++ " for machine " ++ "m").data = true ∧
    List.isPrefixOf ("Unsupported flow").data
      ("Unsupported state " ++ toString (70 : ℚ) ++ " for machine " ++ "m").data = false := by
  refine ⟨?_, by decide, by decide⟩
  have hmem : (70 : ℚ) ∉ ([50, 75, 100] : List ℚ) := by norm_num
  simp [machineStep, hmem]

/-- **C3** (amended): for every `Machine.step` with a non-null state `s` and
`max_starting = None`, the step commits `s` to the state history iff `s` is in
the setpoint domain (exact breakpoint membership when `discrete_setpoint`, the
breakpoint interval when continuous) and every per-column realized flow is
`np.isclose` to the expected value (table lookup when discrete, linear
interpolation when continuous); a state outside the domain raises
`Unsupported state` naming the state and the machine, and a flow mismatch
raises the per-column message (which names the machine, and the commodity in
the continuous case). -/
theorem machine_step_state_spec (m : Machine) (x : ℚ) (flows : Flows)
    (hms : m.max_starting = none) :
    (machineStep m (some x) flows = .ok (m.states ++ [some x]) ↔
      (inDomain m x ∧
        ∀ col ∈ m.cols, isclose (expectedFlow m x col) (gateFlow m.name col.1 flows))) ∧
    (¬ inDomain m x →
      machineStep m (some x) flows =
        .error ("Unsupported state " ++ toString x ++ " for machine " ++ m.name)) ∧
    (∀ e, inDomain m x → machineStep m (some x) flows = .error e →
      ∃ col ∈ m.cols, ¬ isclose (expectedFlow m x col) (gateFlow m.name col.1 flows) ∧
        e = (if m.discrete_setpoint then
              "Flow " ++ toString (expectedFlow m x col) ++ " expected for machine " ++
                m.name ++ " with state " ++ toString x ++ ", got " ++
                toString (gateFlow m.name col.1 flows)
            else
              "Expected flow " ++ toString (expectedFlow m x col) ++ " for " ++
                col.1.1 ++ " commodity " ++ col.1.2 ++ " in machine " ++ m.name ++
                ", got " ++ toString (gateFlow m.name col.1 flows))) := by
  by_cases hd : m.discrete_setpoint = true
  · by_cases hx : x ∈ m.setpoints
    · have hdom : inDomain m x := by simp [inDomain, hd, hx]
      cases hdc : discreteCheck m x flows m.cols with
      | some e =>
        refine ⟨?_, fun hnd => absurd hdom hnd, ?_⟩
        · refine iff_of_false (by simp [machineStep, hd, hx, hdc]) ?_
          rintro ⟨-, hall⟩
          have hnone : discreteCheck m x flows m.cols = none :=
            (discreteCheck_eq_none_iff m x flows m.cols).mpr (by
              intro col hc
              simpa [expectedFlow, hd] using hall col hc)
          rw [hnone] at hdc
          exact Option.noConfusion hdc
        · intro e2 _ he
          have he2 : e = e2 := by simpa [machineStep, hd, hx, hdc] using he
          obtain ⟨col, hmem, hnc, hmsg⟩ := discreteCheck_eq_some m x flows m.cols e hdc
          refine ⟨col, hmem, by simpa [expectedFlow, hd] using hnc, ?_⟩
          rw [← he2, hmsg]
          simp [expectedFlow, hd]
      | none =>
        have hok : machineStep m (some x) flows = .ok (m.states ++ [some x]) := by
          simp [machineStep, hd, hx, hdc, maxStartCheck, hms]
        refine ⟨?_, fun hnd => absurd hdom hnd, ?_⟩
        · refine iff_of_true hok ⟨hdom, ?_⟩
          intro col hc
          simpa [expectedFlow, hd] using
            (discreteCheck_eq_none_iff m x flows m.cols).mp hdc col hc
        · intro e _ he
          rw [hok] at he
          exact Except.noConfusion he
    · have hnd : ¬ inDomain m x := by simp [inDomain, hd, hx]
      have herr : machineStep m (some x) flows =
          .error ("Unsupported state " ++ toString x ++ " for machine " ++ m.name) := by
        simp [machineStep, hd, hx]
      refine ⟨iff_of_false (by simp [herr]) (fun hc => hnd hc.1), fun _ => herr,
        fun e hdom _ => absurd hdom hnd⟩
  · by_cases hx : m.setpoints.head?.getD 0 ≤ x ∧ x ≤ m.setpoints.getLast?.getD 0
    · have hdom : inDomain m x := by simp [inDomain, hd, hx]
      cases hcc : continuousCheck m x flows m.cols with
      | some e =>
        refine ⟨?_, fun hnd => absurd hdom hnd, ?_⟩
        · refine iff_of_false (by simp [machineStep, hd, hx, hcc]) ?_
          rintro ⟨-, hall⟩
          have hnone : continuousCheck m x flows m.cols = none :=
            (continuousCheck_eq_none_iff m x flows m.cols).mpr (by
              intro col hc
              simpa [expectedFlow, hd] using hall col hc)
          rw [hnone] at hcc
          exact Option.noConfusion hcc
        · intro e2 _ he
          have he2 : e = e2 := by simpa [machineStep, hd, hx, hcc] using he
          obtain ⟨col, hmem, hnc, hmsg⟩ := continuousCheck_eq_some m x flows m.cols e hcc
          refine ⟨col, hmem, by simpa [expectedFlow, hd] using hnc, ?_⟩
          rw [← he2, hmsg]
          simp [expectedFlow, hd]
      | none =>
        have hok : machineStep m (some x) flows = .ok (m.states ++ [some x]) := by
          simp [machineStep, hd, hx, hcc, maxStartCheck, hms]
        refine ⟨?_, fun hnd => absurd hdom hnd, ?_⟩
        · refine iff_of_true hok ⟨hdom, ?_⟩
          intro col hc
          simpa [expectedFlow, hd] using
            (continuousCheck_eq_none_iff m x flows m.cols).mp hcc col hc
        · intro e _ he
          rw [hok] at he
          exact Except.noConfusion he
    · have hnd : ¬ inDomain m x := by simp [inDomain, hd, hx]
      have herr : machineStep m (some x) flows =
          .error ("Unsupported state " ++ toString x ++ " for machine " ++ m.name) := by
        simp [machineStep, hd, hx]
      refine ⟨iff_of_false (by simp [herr]) (fun hc => hnd hc.1), fun _ => herr,
        fun e hdom _ => absurd hdom hnd⟩

/-- Witness for the amended C3 at a concrete input: a continuous machine with
breakpoints `[50, 100]` and a single output column `[10, 20]` accepts state `75`
with a realized output flow `15` obtained by linear interpolation. -/
theorem machine_step_state_spec_witness :
    (⟨"m", [50, 100], [(("output", "out_com"), [10, 20])], false, none,
        []⟩ : Machine).max_starting = none ∧
    machineStep ⟨"m", [50, 100], [(("output", "out_com"), [10, 20])], false, none, []⟩
        (some 75) [(("m", "cus", "out_com"), 15)] =
      .ok (([] : List (Option ℚ)) ++ [some 75]) :=
  ⟨rfl, (machine_step_state_spec
      ⟨"m", [50, 100], [(("output", "out_com"), [10, 20])], false, none, []⟩
      75 [(("m", "cus", "out_com"), 15)] rfl).1.mpr
    ⟨by simp [inDomain]; norm_num, by
      intro col hc
      simp at hc
      simp [hc, expectedFlow, interp, gateFlow, isclose, atol, rtol]
      norm_num⟩⟩

/-- **C5** (counterexample): with `max_starting = (N, T) = (1, 5)` and a
committed history of only two steps, committing a second start raises, but the
message names the truncated window `min(T, len(history) + 1) = 3` rather than
`T = 5` as the claim states. -/
theorem machine_max_starting_window_counterexample :
    machineStep ⟨"m", [1], [], true, some (1, 5), [some 1, none]⟩ (some 1) [] =
      .error ("Machine " ++ "m" ++ " cannot be started for more than " ++
        toString (1 : ℕ) ++ " times in " ++ toString (3 : ℕ) ++ " steps") ∧
    ("Machine " ++ "m" ++ " cannot be started for more than " ++ toString (1 : ℕ) ++
        " times in " ++ toString (3 : ℕ) ++ " steps") ≠
      ("Machine " ++ "m" ++ " cannot be started for more than " ++ toString (1 : ℕ) ++
        " times in " ++ toString (5 : ℕ) ++ " steps") := by
  constructor
  · rfl
  · decide

/-- **C5** (amended): for every `Machine.step` with `max_starting = (N, T)`, a
non-null state in the setpoint domain, and matching per-column flows, the step
commits iff the number of off-to-on transitions in the trailing window
(implicit off sentinel included, the committed step counted) is at most `N`;
the `(N+1)`-th start raises an error naming the machine, `N`, and the effective
window length `min(T, committed-history length + 1)`. -/
theorem machine_max_starting_spec (m : Machine) (x : ℚ) (flows : Flows) (n t : Nat)
    (hms : m.max_starting = some (n, t))
    (hdom : inDomain m x)
    (hchk : (if m.discrete_setpoint then discreteCheck m x flows m.cols
             else continuousCheck m x flows m.cols) = none) :
    (machineStep m (some x) flows = .ok (m.states ++ [some x]) ↔
      startCount (startWindow m t x) ≤ n) ∧
    (n < startCount (startWindow m t x) →
      machineStep m (some x) flows = .error ("Machine " ++ m.name ++
        " cannot be started for more than " ++ toString n ++ " times in " ++
        toString (effWindow m t) ++ " steps")) := by
  have hmsc : ∀ hcnt : startCount (startWindow m t x) ≤ n, maxStartCheck m x = none := by
    intro hcnt
    simp [maxStartCheck, hms, Nat.not_lt.mpr hcnt]
  have hmse : ∀ hgt : n < startCount (startWindow m t x),
      maxStartCheck m x = some ("Machine " ++ m.name ++
        " cannot be started for more than " ++ toString n ++ " times in " ++
        toString (effWindow m t) ++ " steps") := by
    intro hgt
    simp [maxStartCheck, hms, hgt]
  by_cases hd : m.discrete_setpoint = true
  · have hx : x ∈ m.setpoints := by simpa [inDomain, hd] using hdom
    have hdc : discreteCheck m x flows m.cols = none := by simpa [hd] using hchk
    by_cases hcnt : startCount (startWindow m t x) ≤ n
    · exact ⟨iff_of_true (by simp [machineStep, hd, hx, hdc, hmsc hcnt]) hcnt,
        fun h => absurd h (Nat.not_lt.mpr hcnt)⟩
    · have hgt := Nat.not_le.mp hcnt
      exact ⟨iff_of_false (by simp [machineStep, hd, hx, hdc, hmse hgt]) hcnt,
        fun _ => by simp [machineStep, hd, hx, hdc, hmse hgt]⟩
  · have hx : m.setpoints.head?.getD 0 ≤ x ∧ x ≤ m.setpoints.getLast?.getD 0 := by
      simpa [inDomain, hd] using hdom
    have hcc : continuousCheck m x flows m.cols = none := by simpa [hd] using hchk
    by_cases hcnt : startCount (startWindow m t x) ≤ n
    · exact ⟨iff_of_true (by simp [machineStep, hd, hx, hcc, hmsc hcnt]) hcnt,
        fun h => absurd h (Nat.not_lt.mpr hcnt)⟩
    · have hgt := Nat.not_le.mp hcnt
      exact ⟨iff_of_false (by simp [machineStep, hd, hx, hcc, hmse hgt]) hcnt,
        fun _ => by simp [machineStep, hd, hx, hcc, hmse hgt]⟩

/-- Witness for the amended C5 at a concrete input: the machine above (history
`[on, off]`, `max_starting = (1, 5)`) commits a second start and raises the
error naming the machine, `N = 1` and the effective window `3`. -/
theorem machine_max_starting_spec_witness :
    1 < startCount (startWindow ⟨"m", [1], [], true, some (1, 5), [some 1, none]⟩ 5 1) ∧
    machineStep ⟨"m", [1], [], true, some (1, 5), [some 1, none]⟩ (some 1) [] =
      .error ("Machine " ++
        (⟨"m", [1], [], true, some (1, 5), [some 1, none]⟩ : Machine).name ++
        " cannot be started for more than " ++ toString (1 : ℕ) ++ " times in " ++
        toString (effWindow ⟨"m", [1], [], true, some (1, 5), [some 1, none]⟩ 5) ++
        " steps") :=
  ⟨by decide, (machine_max_starting_spec
      ⟨"m", [1], [], true, some (1, 5), [some 1, none]⟩ 1 [] 1 5 rfl
      (by simp [inDomain]) (by simp [discreteCheck])).2 (by decide)⟩

/-- **C4** (counterexample): the commit of a `None` flow with a *machine*
destination succeeds regardless of the machine state — here the in-scope
current state `some 1` is on, not off, yet the edge accepts — refuting the
claim that a null flow is accepted *only when* the destination machine is in
the off state. -/
theorem edge_null_flow_counterexample :
    edgeUpdate ⟨⟨"sup", .supplier⟩, ⟨"mac", .machine⟩, 0, 10, false, 0, 3, []⟩ none =
      .ok ⟨⟨"sup", .supplier⟩, ⟨"mac", .machine⟩, 0, 10, false, 1, 3, [none]⟩ ∧
    ¬ claimedNullFlowOk ⟨⟨"sup", .supplier⟩, ⟨"mac", .machine⟩, 0, 10, false, 0, 3, []⟩
      (some 1) := by
  refine ⟨rfl, ?_⟩
  intro hclaim
  exact Option.noConfusion hclaim.2

/-- **C4** (amended): for every edge commit within the horizon: a non-null flow
`f` commits iff `min_flow ≤ f ≤ max_flow` and, when `integer`, `f` is a whole
number, with each violation raising an error naming the edge key and the
violated bound; a `None`/`NaN` flow is accepted iff the destination is a
Machine (regardless of the machine state), and rejected with an error naming
the edge key otherwise. -/
theorem edge_update_spec (e : Edge) (f : ℚ) (hstep : e.step < e.horizon) :
    (edgeUpdate e none = .ok { e with step := e.step + 1, flows := e.flows ++ [none] } ↔
      e.destination.kind = NodeKind.machine) ∧
    (e.destination.kind ≠ NodeKind.machine →
      edgeUpdate e none =
        .error ("None flows are allowed for machines destinations only, got None flow for edge "
          ++ edgeKeyStr e)) ∧
    (edgeUpdate e (some f) = .ok { e with step := e.step + 1, flows := e.flows ++ [some f] } ↔
      (e.min_flow ≤ f ∧ f ≤ e.max_flow ∧ (e.integer = true → f.den = 1))) ∧
    (f < e.min_flow →
      edgeUpdate e (some f) = .error ("Flow for edge " ++ edgeKeyStr e ++
        " should be >= " ++ toString e.min_flow ++ ", got " ++ toString f)) ∧
    (e.min_flow ≤ f → e.max_flow < f →
      edgeUpdate e (some f) = .error ("Flow for edge " ++ edgeKeyStr e ++
        " should be <= " ++ toString e.max_flow ++ ", got " ++ toString f)) ∧
    (e.min_flow ≤ f → f ≤ e.max_flow → e.integer = true → f.den ≠ 1 →
      edgeUpdate e (some f) = .error ("Flow for edge " ++ edgeKeyStr e ++
        " should be integer, got " ++ toString f)) := by
  refine ⟨?_, ?_, ?_, ?_, ?_, ?_⟩
  · by_cases hm : e.destination.kind = NodeKind.machine
    · exact iff_of_true (by simp [edgeUpdate, hstep, hm]) hm
    · exact iff_of_false (by simp [edgeUpdate, hstep, hm]) hm
  · intro hm
    simp [edgeUpdate, hstep, hm]
  · by_cases h1 : e.min_flow ≤ f
    · by_cases h2 : f ≤ e.max_flow
      · by_cases h3 : e.integer = true ∧ ¬(f.den = 1)
        · refine iff_of_false (by simp [edgeUpdate, hstep, h1, h2, h3]) ?_
          rintro ⟨-, -, hint⟩
          exact h3.2 (hint h3.1)
        · refine iff_of_true (by simp [edgeUpdate, hstep, h1, h2, h3]) ⟨h1, h2, ?_⟩
          intro hi
          by_contra hden
          exact h3 ⟨hi, hden⟩
      · exact iff_of_false (by simp [edgeUpdate, hstep, h1, h2]) (fun hc => h2 hc.2.1)
    · exact iff_of_false (by simp [edgeUpdate, hstep, h1]) (fun hc => h1 hc.1)
  · intro h1
    simp [edgeUpdate, hstep, not_le.mpr h1]
  · intro h1 h2
    simp [edgeUpdate, hstep, h1, not_le.mpr h2]
  · intro h1 h2 h3 h4
    simp [edgeUpdate, hstep, h1, h2, h3, h4]

/-- Witness for the amended C4 at a concrete input: an integer edge with bounds
`[0, 10]` rejects the fractional flow `3/2` with the integer-violation message. -/
theorem edge_update_spec_witness :
    (⟨⟨"sup", .supplier⟩, ⟨"cus", .customer⟩, 0, 10, true, 0, 3, []⟩ : Edge).step <
      (⟨⟨"sup", .supplier⟩, ⟨"cus", .customer⟩, 0, 10, true, 0, 3, []⟩ : Edge).horizon ∧
    edgeUpdate ⟨⟨"sup", .supplier⟩, ⟨"cus", .customer⟩, 0, 10, true, 0, 3, []⟩
        (some (3/2)) =
      .error ("Flow for edge " ++
        edgeKeyStr ⟨⟨"sup", .supplier⟩, ⟨"cus", .customer⟩, 0, 10, true, 0, 3, []⟩ ++
        " should be integer, got " ++ toString ((3 : ℚ)/2)) :=
  ⟨by decide, (edge_update_spec
      ⟨⟨"sup", .supplier⟩, ⟨"cus", .customer⟩, 0, 10, true, 0, 3, []⟩ (3/2)
      (by decide)).2.2.2.2.2 (by norm_num) (by norm_num) rfl (by norm_num)⟩

/-- **C9**: for every two internal nodes, equality holds iff the names are
equal — the `InternalNode._instance` override makes the kind and every other
attribute irrelevant — and the hash is the hash of the name; in particular two
nodes of different kinds with the same name compare equal and hash equally. -/
theorem node_eq_hash_spec (strHash : String → Int) (a b : INode) :
    (nodeEq a b = true ↔ a.name = b.name) ∧
    nodeHash strHash a = strHash a.name ∧
    (a.kind ≠ b.kind → a.name = b.name →
      nodeEq a b = true ∧ nodeHash strHash a = nodeHash strHash b) := by
  refine ⟨by simp [nodeEq, instanceNode, INode.key], rfl, ?_⟩
  intro hk hn
  exact ⟨by simp [nodeEq, instanceNode, INode.key, hn],
    by simp [nodeHash, INode.key, hn]⟩

/-- Witness for C9 at a concrete input: a supplier and a storage that share the
name `n` compare equal and hash equally despite different kinds and attributes. -/
theorem node_eq_hash_spec_witness :
    nodeEq ⟨NodeKind.supplier, "n", []⟩ ⟨NodeKind.storage, "n", [("capacity", "5")]⟩ = true ∧
    nodeHash (fun s => (s.length : Int)) ⟨NodeKind.supplier, "n", []⟩ =
      nodeHash (fun s => (s.length : Int)) ⟨NodeKind.storage, "n", [("capacity", "5")]⟩ :=
  (node_eq_hash_spec (fun s => (s.length : Int))
    ⟨NodeKind.supplier, "n", []⟩ ⟨NodeKind.storage, "n", [("capacity", "5")]⟩).2.2
    (by decide) rfl

theorem runUpdate_replicate (H c n : Nat) (hc : c < H) :
    runUpdate H (List.replicate n c) = .ok (List.replicate n (c + 1)) := by
  induction n with
  | zero => simp [runUpdate]
  | succ k ih => simp [List.replicate_succ, runUpdate, dataStep, hc, ih]

theorem runSim_replicate_ok (H n : Nat) :
    ∀ k c, c + k ≤ H → runSim H (List.replicate n c) k = .ok (List.replicate n (c + k)) := by
  intro k
  induction k with
  | zero => intro c h; simp [runSim]
  | succ j ih =>
    intro c h
    have hc : c < H := by omega
    have hrec := ih (c + 1) (by omega)
    have harith : c + 1 + j = c + (j + 1) := by omega
    rw [harith] at hrec
    simp [runSim, runUpdate_replicate H c n hc, hrec]

/-- **C8**: a plant whose `run()` has completed over the full horizon has every
entity step counter at `H`; a second `run()` immediately fails the
`_step` assertion instead of performing another simulation (spec-modelled: the
`run_update` body is not under `src/`, see `runUpdate`). -/
theorem plant_run_twice_spec (H nEnt : Nat) (hH : 0 < H) (hn : 0 < nEnt) :
    plantRun H (List.replicate nEnt 0) = .ok (List.replicate nEnt H) ∧
    plantRun H (List.replicate nEnt H) =
      .error ("datatype has reached maximal number of updates for the simulation") := by
  constructor
  · simpa using runSim_replicate_ok H nEnt H 0 (by omega)
  · obtain ⟨k, hk⟩ := Nat.exists_eq_succ_of_ne_zero (Nat.pos_iff_ne_zero.mp hH)
    obtain ⟨m, hm⟩ := Nat.exists_eq_succ_of_ne_zero (Nat.pos_iff_ne_zero.mp hn)
    rw [plantRun, hk, hm]
    simp [runSim, runUpdate, List.replicate_succ, dataStep]

/-- Witness for C8 at a concrete input: with horizon `2` and one entity, the
first run succeeds and the second raises. -/
theorem plant_run_twice_spec_witness :
    (0 : Nat) < 2 ∧ (0 : Nat) < 1 ∧
    (plantRun 2 (List.replicate 1 0) = .ok (List.replicate 1 2) ∧
      plantRun 2 (List.replicate 1 2) =
        .error ("datatype has reached maximal number of updates for the simulation")) :=
  ⟨by decide, by decide, plant_run_twice_spec 2 1 (by decide) (by decide)⟩

theorem findNode_name :
    ∀ (nodes : List (String × List PNode)) (p : String) (par : PNode),
      findNode nodes p = some par → par.name = p := by
  intro nodes
  induction nodes with
  | nil => intro p par h; simp [findNode] at h
  | cons kn rest ih =>
    intro p par h
    cases hf : kn.2.find? (fun n => n.name == p) with
    | some n =>
      rw [findNode, hf] at h
      cases h
      simpa using List.find?_some hf
    | none =>
      rw [findNode, hf] at h
      exact ih p par h

theorem addParentEdges_preserves (node : PNode) :
    ∀ (ps : List String) (st : PlantState),
      (addParentEdges node ps st).1.nodes = st.nodes ∧
      (addParentEdges node ps st).1.commodities = st.commodities := by
  intro ps
  induction ps with
  | nil => intro st; exact ⟨rfl, rfl⟩
  | cons p rest ih =>
    intro st
    cases hf : findNode st.nodes p with
    | none => simp [addParentEdges, hf]
    | some parent =>
      by_cases hc : node.commodity_in.any (fun c => decide (c ∈ parent.commodities_out)) = true
      · simpa [addParentEdges, hf, hc] using
          ih { st with edges := addEdge st.edges (parent.name, node.name) }
      · simp [addParentEdges, hf, hc]

theorem addParentEdges_none_iff (node : PNode) :
    ∀ (ps : List String) (st : PlantState),
      (addParentEdges node ps st).2 = none ↔ ∀ p ∈ ps, parentGood node st.nodes p := by
  intro ps
  induction ps with
  | nil => intro st; simp [addParentEdges]
  | cons p rest ih =>
    intro st
    cases hf : findNode st.nodes p with
    | none =>
      refine iff_of_false (by simp [addParentEdges, hf]) ?_
      intro hall
      obtain ⟨par, hpar, -⟩ := hall p (List.mem_cons_self p rest)
      rw [hf] at hpar
      exact Option.noConfusion hpar
    | some parent =>
      by_cases hc : node.commodity_in.any (fun c => decide (c ∈ parent.commodities_out)) = true
      · rw [show (addParentEdges node (p :: rest) st).2 =
            (addParentEdges node rest
              { st with edges := addEdge st.edges (parent.name, node.name) }).2 by
            simp [addParentEdges, hf, hc]]
        rw [ih { st with edges := addEdge st.edges (parent.name, node.name) }]
        constructor
        · intro hall
          intro q hq
          rcases List.mem_cons.mp hq with rfl | hq2
          · exact ⟨parent, hf, hc⟩
          · exact hall q hq2
        · intro hall q hq
          exact hall q (List.mem_cons_of_mem p hq)
      · refine iff_of_false (by simp [addParentEdges, hf, hc]) ?_
        intro hall
        obtain ⟨par, hpar, hcomm⟩ := hall p (List.mem_cons_self p rest)
        rw [hf] at hpar
        cases hpar
        exact hc hcomm

theorem addParentEdges_ok (node : PNode) :
    ∀ (ps : List String) (st : PlantState),
      (∀ p ∈ ps, parentGood node st.nodes p) →
      ps.Nodup →
      (∀ p ∈ ps, (p, node.name) ∉ st.edges) →
      addParentEdges node ps st =
        ({ st with edges := st.edges ++ ps.map (fun p => (p, node.name)) }, none) := by
  intro ps
  induction ps with
  | nil => intro st _ _ _; simp [addParentEdges]
  | cons p rest ih =>
    intro st hall hnd hfresh
    obtain ⟨par, hf, hcomm⟩ := hall p (List.mem_cons_self p rest)
    have hpname : par.name = p := findNode_name st.nodes p par hf
    have hpe : (p, node.name) ∉ st.edges := hfresh p (List.mem_cons_self p rest)
    have hstep : addParentEdges node (p :: rest) st =
        addParentEdges node rest { st with edges := st.edges ++ [(p, node.name)] } := by
      simp [addParentEdges, hf, hcomm, addEdge, hpname, hpe]
    rw [hstep, ih { st with edges := st.edges ++ [(p, node.name)] }
      (fun q hq => hall q (List.mem_cons_of_mem p hq))
      (List.Nodup.of_cons hnd) ?_]
    · simp
    · intro q hq
      have hqp : q ≠ p := fun hqp => (List.nodup_cons.mp hnd).1 (hqp ▸ hq)
      simp [hfresh q (List.mem_cons_of_mem p hq), hqp]

theorem addParentEdges_err (node : PNode) :
    ∀ (ps : List String) (st : PlantState) (e : String),
      (addParentEdges node ps st).2 = some e →
      ∃ p ∈ ps,
        (findNode st.nodes p = none ∧
          e = "Parent node " ++ p ++ " has not been added yet") ∨
        (∃ par, findNode st.nodes p = some par ∧
          ¬ (node.commodity_in.any (fun c => decide (c ∈ par.commodities_out)) = true) ∧
          e = "Parent node " ++ par.name ++ " should return commodity " ++
            optStr node.commodity_in ++ ", but it returns " ++
            toString par.commodities_out) := by
  intro ps
  induction ps with
  | nil => intro st e h; simp [addParentEdges] at h
  | cons p rest ih =>
    intro st e h
    cases hf : findNode st.nodes p with
    | none =>
      refine ⟨p, List.mem_cons_self p rest, Or.inl ⟨hf, ?_⟩⟩
      have := h
      rw [addParentEdges, hf] at this
      exact (Option.some.injEq _ _ ▸ this :).symm
    | some parent =>
      by_cases hc : node.commodity_in.any (fun c => decide (c ∈ parent.commodities_out)) = true
      · have h2 : (addParentEdges node rest
            { st with edges := addEdge st.edges (parent.name, node.name) }).2 = some e := by
          rw [← h]; simp [addParentEdges, hf, hc]
        obtain ⟨q, hq, hcase⟩ := ih _ e h2
        exact ⟨q, List.mem_cons_of_mem p hq, hcase⟩
      · refine ⟨p, List.mem_cons_self p rest, Or.inr ⟨parent, hf, hc, ?_⟩⟩
        have := h
        rw [addParentEdges, hf] at this
        simp [hc] at this
        exact this.symm

theorem findCollision_eq_none_iff (nodes : List (String × List PNode)) (name : String) :
    findCollision nodes name = none ↔ ∀ kn ∈ nodes, ∀ n ∈ kn.2, n.name ≠ name := by
  induction nodes with
  | nil => simp [findCollision]
  | cons kn rest ih =>
    by_cases h : kn.2.any (fun n => n.name == name) = true
    · refine iff_of_false (by simp [findCollision, h]) ?_
      intro hall
      obtain ⟨n, hn, hbeq⟩ := List.any_eq_true.mp h
      exact hall kn (List.mem_cons_self kn rest) n hn (by simpa using hbeq)
    · rw [show findCollision (kn :: rest) name = findCollision rest name by
        simp [findCollision, h]]
      rw [ih]
      constructor
      · intro hall q hq
        rcases List.mem_cons.mp hq with rfl | hq2
        · intro n hn
          by_contra hne
          exact h (List.any_eq_true.mpr ⟨n, hn, by simpa using hne⟩)
        · exact hall q hq2
      · intro hall q hq
        exact hall q (List.mem_cons_of_mem kn hq)

theorem insertNode_mem (nodes : List (String × List PNode)) (node : PNode)
    (h : ∀ kn ∈ nodes, ∀ n ∈ kn.2, n.name ≠ node.name) :
    ∃ ns, (node.kind, ns) ∈ insertNode nodes node ∧ node ∈ ns := by
  induction nodes with
  | nil => exact ⟨[node], by simp [insertNode], by simp⟩
  | cons kn rest ih =>
    by_cases hk : kn.1 == node.kind
    · have hany : kn.2.any (fun n => n.name == node.name) = false := by
        rw [List.any_eq_false]
        intro n hn
        simpa using h kn (List.mem_cons_self kn rest) n hn
      refine ⟨kn.2 ++ [node], ?_, by simp⟩
      have hkind : kn.1 = node.kind := by simpa using hk
      rw [show insertNode (kn :: rest) node =
          (kn.1, kn.2 ++ [node]) :: rest by
        rw [insertNode.eq_def]
        simp [hk, hany]]
      rw [hkind]
      exact List.mem_cons_self _ _
    · obtain ⟨ns, hmem, hnode⟩ := ih (fun q hq => h q (List.mem_cons_of_mem kn hq))
      refine ⟨ns, ?_, hnode⟩
      rw [show insertNode (kn :: rest) node = (kn.1, kn.2) :: insertNode rest node by
        rw [insertNode.eq_def]
        simp [hk]]
      exact List.mem_cons_of_mem _ hmem

theorem mem_addCommodity (l : List String) (c a : String) :
    a ∈ addCommodity l c ↔ a ∈ l ∨ a = c := by
  by_cases h : c ∈ l
  · simp only [addCommodity, if_pos h]
    constructor
    · exact Or.inl
    · rintro (h1 | rfl)
      · exact h1
      · exact h
  · simp [addCommodity, h]

theorem mem_updateCommodities (cs : List String) :
    ∀ (l : List String) (a : String), (a ∈ l ∨ a ∈ cs) → a ∈ updateCommodities l cs := by
  induction cs with
  | nil => intro l a h; simpa [updateCommodities] using h.resolve_right (by simp)
  | cons c rest ih =>
    intro l a h
    rw [show updateCommodities l (c :: rest) = updateCommodities (addCommodity l c) rest from rfl]
    rcases h with h1 | h2
    · exact ih _ a (Or.inl ((mem_addCommodity l c a).mpr (Or.inl h1)))
    · rcases List.mem_cons.mp h2 with rfl | h3
      · exact ih _ a (Or.inl ((mem_addCommodity l a a).mpr (Or.inr rfl)))
      · exact ih _ a (Or.inr h3)

theorem mem_newComs (st : PlantState) (node : PNode) (a : String)
    (h : node.commodity_in = some a ∨ a ∈ node.commodities_out) :
    a ∈ newComs st node := by
  rcases h with h1 | h2
  · refine mem_updateCommodities node.commodities_out _ a (Or.inl ?_)
    rw [h1]
    exact (mem_addCommodity st.commodities a a).mpr (Or.inr rfl)
  · exact mem_updateCommodities node.commodities_out _ a (Or.inr h2)

/-- **C7**: `_check_and_update` (the common body of
`add_supplier/add_client/add_machine/add_storage`): a name already used by a
node of any kind raises naming the existing kind and the name; for a
non-supplier node (a parent list is given) an empty list raises, a parent that
does not resolve raises naming it, a parent whose `commodities_out` lacks the
node's input commodity raises naming the parent, the commodity, and the
parent's outputs; and on success exactly one edge is created per
`(parent, new-node)` pair. -/
theorem plant_check_and_update_spec (st : PlantState) (node : PNode) (ps : List String) :
    (∀ kind, findCollision st.nodes node.name = some kind →
      ∀ par, checkAndUpdate st node par =
        ({ st with commodities := newComs st node },
          some ("There is already a " ++ kind ++ " node " ++ node.name ++
            ", please use another identifier"))) ∧
    ((findCollision st.nodes node.name = none) ↔
      ∀ kn ∈ st.nodes, ∀ n ∈ kn.2, n.name ≠ node.name) ∧
    (findCollision st.nodes node.name = none →
      (checkAndUpdate st node (some []) =
        ({ commodities := newComs st node, nodes := insertNode st.nodes node,
           edges := st.edges },
          some (node.kind.capitalize ++ " node must have at least one parent"))) ∧
      ((∀ p ∈ ps, parentGood node (insertNode st.nodes node) p) → ps ≠ [] →
        ps.Nodup → (∀ p ∈ ps, (p, node.name) ∉ st.edges) →
        checkAndUpdate st node (some ps) =
          ({ commodities := newComs st node, nodes := insertNode st.nodes node,
             edges := st.edges ++ ps.map (fun p => (p, node.name)) }, none)) ∧
      (∀ e, ps ≠ [] → (checkAndUpdate st node (some ps)).2 = some e →
        ∃ p ∈ ps,
          (findNode (insertNode st.nodes node) p = none ∧
            e = "Parent node " ++ p ++ " has not been added yet") ∨
          (∃ par, findNode (insertNode st.nodes node) p = some par ∧
            ¬ (node.commodity_in.any (fun c => decide (c ∈ par.commodities_out)) = true) ∧
            e = "Parent node " ++ par.name ++ " should return commodity " ++
              optStr node.commodity_in ++ ", but it returns " ++
              toString par.commodities_out))) := by
  refine ⟨?_, findCollision_eq_none_iff st.nodes node.name, ?_⟩
  · intro kind h par
    simp [checkAndUpdate, h]
  · intro hnc
    refine ⟨by simp [checkAndUpdate, hnc], ?_, ?_⟩
    · intro hall hne hnd hfresh
      have hemp : ps.isEmpty = false := by
        cases ps with
        | nil => exact absurd rfl hne
        | cons a l => rfl
      rw [show checkAndUpdate st node (some ps) =
          addParentEdges node ps
            { commodities := newComs st node, nodes := insertNode st.nodes node,
              edges := st.edges } by simp [checkAndUpdate, hnc, hemp]]
      exact addParentEdges_ok node ps _ hall hnd hfresh
    · intro e hne he
      have hemp : ps.isEmpty = false := by
        cases ps with
        | nil => exact absurd rfl hne
        | cons a l => rfl
      rw [show checkAndUpdate st node (some ps) =
          addParentEdges node ps
            { commodities := newComs st node, nodes := insertNode st.nodes node,
              edges := st.edges } by simp [checkAndUpdate, hnc, hemp]] at he
      exact addParentEdges_err node ps _ e he

/-- Witness for C7 at a concrete input: adding a customer of commodity `e`
below an existing supplier of `e` creates exactly the edge `(sup, cus)`. -/
theorem plant_check_and_update_spec_witness :
    checkAndUpdate ⟨["e"], [("supplier", [⟨"sup", "supplier", none, ["e"]⟩])], []⟩
        ⟨"cus", "customer", some "e", []⟩ (some ["sup"]) =
      ({ commodities := newComs
           ⟨["e"], [("supplier", [⟨"sup", "supplier", none, ["e"]⟩])], []⟩
           ⟨"cus", "customer", some "e", []⟩,
         nodes := insertNode [("supplier", [⟨"sup", "supplier", none, ["e"]⟩])]
           ⟨"cus", "customer", some "e", []⟩,
         edges := [] ++ [("sup", "cus")] }, none) := by
  have h := (plant_check_and_update_spec
    ⟨["e"], [("supplier", [⟨"sup", "supplier", none, ["e"]⟩])], []⟩
    ⟨"cus", "customer", some "e", []⟩ ["sup"]).2.2 rfl
  have hall : ∀ p ∈ ["sup"],
      parentGood ⟨"cus", "customer", some "e", []⟩
        (insertNode [("supplier", [⟨"sup", "supplier", none, ["e"]⟩])]
          ⟨"cus", "customer", some "e", []⟩) p := by
    intro p hp
    have hp2 : p = "sup" := by simpa using hp
    subst hp2
    exact ⟨⟨"sup", "supplier", none, ["e"]⟩, rfl, by decide⟩
  simpa using h.2.1 hall (by simp) (by simp) (by simp)

/-- **C10**: `_check_and_update` is not atomic on failure: when the call raises
from the parent loop (a missing parent or a commodity mismatch), the new node
has already been inserted into the kind-indexed node set and its commodities
into the commodity set, and the returned (mutated) state keeps them. -/
theorem plant_partial_mutation_spec (st : PlantState) (node : PNode)
    (ps : List String) (e : String)
    (hnc : findCollision st.nodes node.name = none)
    (hne : ps ≠ [])
    (he : (checkAndUpdate st node (some ps)).2 = some e) :
    (∃ ns, (node.kind, ns) ∈ (checkAndUpdate st node (some ps)).1.nodes ∧ node ∈ ns) ∧
    (∀ c, node.commodity_in = some c →
      c ∈ (checkAndUpdate st node (some ps)).1.commodities) ∧
    (∀ c ∈ node.commodities_out, c ∈ (checkAndUpdate st node (some ps)).1.commodities) ∧
    (∃ p ∈ ps,
      findNode (insertNode st.nodes node) p = none ∨
      ∃ par, findNode (insertNode st.nodes node) p = some par ∧
        ¬ (node.commodity_in.any (fun c => decide (c ∈ par.commodities_out)) = true)) := by
  have hemp : ps.isEmpty = false := by
    cases ps with
    | nil => exact absurd rfl hne
    | cons a l => rfl
  have hrw : checkAndUpdate st node (some ps) =
      addParentEdges node ps
        { commodities := newComs st node, nodes := insertNode st.nodes node,
          edges := st.edges } := by
    simp [checkAndUpdate, hnc, hemp]
  have hpres := addParentEdges_preserves node ps
    { commodities := newComs st node, nodes := insertNode st.nodes node, edges := st.edges }
  refine ⟨?_, ?_, ?_, ?_⟩
  · rw [hrw, hpres.1]
    exact insertNode_mem st.nodes node ((findCollision_eq_none_iff st.nodes node.name).mp hnc)
  · intro c hc
    rw [hrw, hpres.2]
    exact mem_newComs st node c (Or.inl hc)
  · intro c hc
    rw [hrw, hpres.2]
    exact mem_newComs st node c (Or.inr hc)
  · rw [hrw] at he
    obtain ⟨p, hp, hcase⟩ := addParentEdges_err node ps _ e he
    rcases hcase with ⟨hnone, -⟩ | ⟨par, hpar, hbad, -⟩
    · exact ⟨p, hp, Or.inl hnone⟩
    · exact ⟨p, hp, Or.inr ⟨par, hpar, hbad⟩⟩

/-- Witness for C10 at a concrete input: adding a customer requiring commodity
`f` below a supplier that only returns `e` raises the mismatch error, yet the
returned state already holds the customer node and the commodity `f`. -/
theorem plant_partial_mutation_spec_witness :
    (checkAndUpdate ⟨["e"], [("supplier", [⟨"sup", "supplier", none, ["e"]⟩])], []⟩
        ⟨"cus", "customer", some "f", []⟩ (some ["sup"])).2 =
      some ("Parent node " ++ "sup" ++ " should return commodity " ++ "f" ++
        ", but it returns " ++ toString ["e"]) ∧
    (∃ ns, ("customer", ns) ∈
        (checkAndUpdate ⟨["e"], [("supplier", [⟨"sup", "supplier", none, ["e"]⟩])], []⟩
          ⟨"cus", "customer", some "f", []⟩ (some ["sup"])).1.nodes ∧
      (⟨"cus", "customer", some "f", []⟩ : PNode) ∈ ns) ∧
    "f" ∈ (checkAndUpdate ⟨["e"], [("supplier", [⟨"sup", "supplier", none, ["e"]⟩])], []⟩
        ⟨"cus", "customer", some "f", []⟩ (some ["sup"])).1.commodities := by
  have he : (checkAndUpdate ⟨["e"], [("supplier", [⟨"sup", "supplier", none, ["e"]⟩])], []⟩
      ⟨"cus", "customer", some "f", []⟩ (some ["sup"])).2 =
        some ("Parent node " ++ "sup" ++ " should return commodity " ++ "f" ++
          ", but it returns " ++ toString ["e"]) := by rfl
  have h := plant_partial_mutation_spec
    ⟨["e"], [("supplier", [⟨"sup", "supplier", none, ["e"]⟩])], []⟩
    ⟨"cus", "customer", some "f", []⟩ ["sup"] _ rfl (by simp) he
  exact ⟨he, h.1, h.2.1 "f" rfl⟩

end PPSim
